import Mathlib

/-!
Verification of the LSH `Cache` (src/lsh/cache.py): a banded LSH index over
MinHash fingerprints.  Python values that can serve as document ids
(integers, strings, `None`) are embedded as `PyV`; dictionaries are embedded
as insertion-ordered association lists (matching Python's dict semantics),
and Python sets of doc ids as duplicate-free lists carrying their iteration
order.  The external `MinHasher` is kept abstract as a `Hasher` record, and
Python's builtin `hash` over a tuple of band values is an abstract parameter
`pyh` threaded through the operations that key buckets.
-/

namespace Lsh

/-- A Python value usable as a doc id or dict key: an int, a str, or `None`. -/
inductive PyV where
  | int : ℤ → PyV
  | str : String → PyV
  | none : PyV
deriving DecidableEq

/-- The Python exceptions the `Cache` code can raise. -/
inductive PyErr where
  | valueError : PyErr
  | keyError : PyErr
  | assertionError : PyErr
  | zeroDivisionError : PyErr
deriving DecidableEq

/-- The external MinHasher contract (spec §4.1): a fixed number of seeds, a
deterministic fingerprint function on document content, and a Jaccard
estimator on fingerprints. -/
structure Hasher where
  numSeeds : ℕ
  fingerprint : String → List ℤ
  jaccard : List ℤ → List ℤ → ℚ

/-- Lookup in a Python dict embedded as an association list: the first
binding of the key (keys are unique in a real dict). -/
def alookup {β : Type} : List (PyV × β) → PyV → Option β
  | [], _ => Option.none
  | (k0, v0) :: rest, k => if k0 = k then some v0 else alookup rest k

/-- Python dict assignment `d[k] = v`: overwrite in place if the key is
present (keeping its insertion position), else append. -/
def aput {β : Type} : List (PyV × β) → PyV → β → List (PyV × β)
  | [], k, v => [(k, v)]
  | (k0, v0) :: rest, k, v =>
      if k0 = k then (k0, v) :: rest else (k0, v0) :: aput rest k v

/-- Python `set.add` on a set embedded as a duplicate-free list in iteration
order: a no-op when the element is present, else appended. -/
def sadd (s : List PyV) (x : PyV) : List PyV :=
  if x ∈ s then s else s ++ [x]

/-- `itertools.combinations(l, r=2)`: all ordered pairs `(l[i], l[j])` with
`i < j`, in iteration order. -/
def combos2 : List PyV → List (PyV × PyV)
  | [] => []
  | x :: xs => xs.map (fun y => (x, y)) ++ combos2 xs

/-- The section sizes used by `np.array_split(l, n)`: the first `l % n`
sections have size `l / n + 1`, the rest size `l / n`. -/
def splitSizes (len n : ℕ) : List ℕ :=
  (List.range n).map (fun i => if i < len % n then len / n + 1 else len / n)

/-- Cut a list into consecutive chunks of the given sizes. -/
def splitBySizes : List ℕ → List ℤ → List (List ℤ)
  | [], _ => []
  | s :: rest, l => l.take s :: splitBySizes rest (l.drop s)

/-- `np.array_split(l, n)` on a fingerprint: `n` consecutive near-equal
sections (equal sections of width `l.length / n` when `n` divides the
length). -/
def array_split (l : List ℤ) (n : ℕ) : List (List ℤ) :=
  splitBySizes (splitSizes l.length n) l

/-- One band's bucket dict: bucket key (a Python value: `hash` produces ints,
JSON reload produces strings) to the set of doc ids in that bucket. -/
abbrev BandBins := List (PyV × List PyV)

/-- `self.bins[bin_i][bucket_id].add(doc_id)` on a `defaultdict(set)`. -/
def binAdd (band : BandBins) (key : PyV) (i : PyV) : BandBins :=
  match alookup band key with
  | some b => aput band key (sadd b i)
  | Option.none => band ++ [(key, [i])]

/-- The state of `lsh.cache.Cache`. -/
structure Cache where
  hasher : Hasher
  num_bands : ℕ
  band_width : ℕ
  bins : List BandBins
  fingerprints : List (PyV × List ℤ)

/-- `Cache.__init__(hasher, num_bands)`: `num_bands = 0` hits Python's `%`
with a zero divisor; otherwise the `assert hasher.num_seeds % num_bands == 0`
either fails (the spec's ConfigurationError) or the cache is built with
`band_width = num_seeds // num_bands` and empty bins and fingerprint store. -/
def mkCache (hasher : Hasher) (num_bands : ℕ) : Except PyErr Cache :=
  if num_bands = 0 then .error .zeroDivisionError
  else if hasher.numSeeds % num_bands = 0 then
    .ok { hasher := hasher, num_bands := num_bands,
          band_width := hasher.numSeeds / num_bands,
          bins := List.replicate num_bands [], fingerprints := [] }
  else .error .assertionError

/-- `Cache.clear()`: fresh empty bucket dicts for every band; the
fingerprint store is untouched (the hasher memoization reset has no
semantic content here). -/
def clear (c : Cache) : Cache :=
  { c with bins := List.replicate c.num_bands [] }

/-- The bucket-insertion loop of `Cache.update`: for each band index, add
the doc id to that band's bucket keyed by the hash of the band's values. -/
def update_bins (pyh : List ℤ → ℤ) (n : ℕ) (fp : List ℤ) (i : PyV)
    (bins : List BandBins) : List BandBins :=
  bins.enum.map (fun p =>
    match (array_split fp n)[p.1]? with
    | some band => binAdd p.2 (PyV.int (pyh band)) i
    | Option.none => p.2)

/-- `Cache.update(doc, doc_id)`: fingerprint the document, warn (the Bool
component) when a non-None id is already stored, overwrite the stored
fingerprint, and insert the id into each band's bucket. -/
def update (pyh : List ℤ → ℤ) (c : Cache) (doc : String) (doc_id : PyV) :
    Cache × Bool :=
  let fp := c.hasher.fingerprint doc
  let warn := decide (doc_id ≠ PyV.none) && (alookup c.fingerprints doc_id).isSome
  ({ c with
      fingerprints := aput c.fingerprints doc_id fp,
      bins := update_bins pyh c.num_bands fp doc_id c.bins }, warn)

/-- The candidate-pair generation loop of `Cache.get_all_duplicates`: every
pair combination, in bucket iteration order, from every bucket with more than
one member, across all bands; the caller accumulates these into a set. -/
def candList (c : Cache) : List (PyV × PyV) :=
  c.bins.flatMap (fun band =>
    band.flatMap (fun kv => if 1 < kv.2.length then combos2 kv.2 else []))

/-- `Cache.filter_candidates(pairs, min_jaccard)`: re-score every pair from
the stored fingerprints (a missing id is a fatal KeyError) and keep the pairs
whose Jaccard estimate strictly exceeds the threshold. -/
def filter_candidates (c : Cache) (pairs : Finset (PyV × PyV)) (t : ℚ) :
    Except PyErr (Finset (PyV × PyV)) :=
  if _h : ∀ p ∈ pairs, (alookup c.fingerprints p.1).isSome ∧
      (alookup c.fingerprints p.2).isSome then
    .ok (pairs.filter (fun p =>
      c.hasher.jaccard ((alookup c.fingerprints p.1).getD [])
        ((alookup c.fingerprints p.2).getD []) > t))
  else .error .keyError

/-- `Cache.get_all_duplicates(min_jaccard)`: the deduplicated candidate
pairs, exactly re-scored when a threshold is given. -/
def get_all_duplicates (c : Cache) : Option ℚ → Except PyErr (Finset (PyV × PyV))
  | Option.none => .ok (candList c).toFinset
  | some t => filter_candidates c (candList c).toFinset t

/-- The candidate-collection loop of `Cache.get_duplicates_of`: the union of
the bucket memberships the fingerprint's bands hash to, across all bands. -/
def bucket_members (pyh : List ℤ → ℤ) (c : Cache) (fp : List ℤ) : Finset PyV :=
  ((array_split fp c.num_bands).enum.flatMap (fun p =>
    (alookup (c.bins.getD p.1 []) (PyV.int (pyh p.2))).getD [])).toFinset

/-- The fingerprint-resolution step of `Cache.get_duplicates_of`: a known
non-None doc id's stored fingerprint wins; else supplied content is
fingerprinted fresh; else ValueError. -/
def resolve_fp (c : Cache) (doc : Option String) (doc_id : PyV) :
    Except PyErr (List ℤ) :=
  match (if doc_id ≠ PyV.none then alookup c.fingerprints doc_id
         else Option.none) with
  | some fp => .ok fp
  | Option.none =>
    match doc with
    | some d => .ok (c.hasher.fingerprint d)
    | Option.none => .error .valueError

/-- The query half of `Cache.get_duplicates_of`: bucket members of the
resolved fingerprint, optionally filtered by exact Jaccard against each
candidate's stored fingerprint (a missing candidate id is a KeyError). -/
def dup_query (pyh : List ℤ → ℤ) (c : Cache) (fp : List ℤ) :
    Option ℚ → Except PyErr (Finset PyV)
  | Option.none => .ok (bucket_members pyh c fp)
  | some t =>
    if _h : ∀ x ∈ bucket_members pyh c fp, (alookup c.fingerprints x).isSome then
      .ok ((bucket_members pyh c fp).filter (fun x =>
        c.hasher.jaccard fp ((alookup c.fingerprints x).getD []) > t))
    else .error .keyError

/-- `Cache.get_duplicates_of(doc, doc_id, min_jaccard)`. -/
def get_duplicates_of (pyh : List ℤ → ℤ) (c : Cache) (doc : Option String)
    (doc_id : PyV) (mj : Option ℚ) : Except PyErr (Finset PyV) :=
  match resolve_fp c doc doc_id with
  | .ok fp => dup_query pyh c fp mj
  | .error e => .error e

/-- `Cache.is_duplicate(doc, doc_id)`: False outright for a known non-None
id; otherwise whether the unfiltered duplicates of the content, minus the
supplied id, are non-empty. -/
def is_duplicate (pyh : List ℤ → ℤ) (c : Cache) (doc : String) (doc_id : PyV) :
    Bool :=
  if doc_id ≠ PyV.none ∧ (alookup c.fingerprints doc_id).isSome then false
  else
    match get_duplicates_of pyh c (some doc) PyV.none Option.none with
    | .ok s => decide ((s.erase doc_id).Nonempty)
    | .error _ => false

instance exceptDecEq {ε α : Type} [DecidableEq ε] [DecidableEq α] :
    DecidableEq (Except ε α) := fun x y =>
  match x, y with
  | .ok a, .ok b =>
      if h : a = b then isTrue (congrArg Except.ok h)
      else isFalse (fun hc => h (Except.ok.inj hc))
  | .ok _, .error _ => isFalse (fun hc => Except.noConfusion hc)
  | .error _, .ok _ => isFalse (fun hc => Except.noConfusion hc)
  | .error e, .error f =>
      if h : e = f then isTrue (congrArg Except.error h)
      else isFalse (fun hc => h (Except.error.inj hc))

/-- Whether an `Except` result is a normal return. -/
def exceptOk {ε α : Type} : Except ε α → Bool
  | .ok _ => true
  | .error _ => false

/-- The pair set `get_all_duplicates(None)` returns (for stating properties
of concrete runs). -/
def gadSet (c : Cache) : Finset (PyV × PyV) :=
  ((get_all_duplicates c Option.none).toOption).getD ∅

/-- How `json.dump` renders a Python value used as a dict key: ints in
decimal, strings as themselves, `None` as `null`. -/
def pyStr : PyV → String
  | PyV.int n => toString n
  | PyV.str s => s
  | PyV.none => "null"

/-- The serialized form of a `Cache` as it sits in the JSON file: all dict
keys stringified, set values as lists, plus the recorded id key type. The
hasher's own export is opaque and round-trips identically (spec §4.1). -/
structure SerCache where
  num_bands : ℕ
  band_width : ℕ
  binsS : List (List (String × List PyV))
  fingerprintsS : List (String × List ℤ)
  id_key_type : String

/-- `Cache.jsonable()` followed by `json.dump`: stringify bucket keys and
fingerprint keys, and record `id_key_type` from the first fingerprint key
(absent, here `""`, when the store is empty or the sample id is `None`). -/
def to_json_data (c : Cache) : SerCache :=
  { num_bands := c.num_bands, band_width := c.band_width,
    binsS := c.bins.map (fun band => band.map (fun kv => (pyStr kv.1, kv.2))),
    fingerprintsS := c.fingerprints.map (fun kv => (pyStr kv.1, kv.2)),
    id_key_type :=
      match c.fingerprints.head? with
      | some (PyV.str _, _) => "str"
      | some (PyV.int _, _) => "int"
      | _ => "" }

/-- Python `int` applied to the one-character string `k[0]`: the digit's
value (a non-digit, on which Python would raise ValueError, falls back
to 0 here and is never exercised). -/
def intOfHeadChar (k : String) : ℤ :=
  match k.data with
  | c :: _ => if c.isDigit then ((c.toNat - 48 : ℕ) : ℤ) else 0
  | [] => 0

/-- The key cast `from_json` applies to a stringified fingerprint key `k`:
`int(k[0])` or `str(k[0])` — only the FIRST character of the key — or the
identity on the string for an absent/empty tag. -/
def castKey (ty : String) (k : String) : PyV :=
  if ty = "int" then PyV.int (intOfHeadChar k)
  else if ty = "str" then PyV.str (k.take 1)
  else PyV.str k

/-- `Cache.from_json` (file reading aside): rebuild the cache from the JSON
data.  `Cache(MinHasher.from_json_str(...), **data)` re-runs construction
with the round-tripped hasher and the stored `num_bands`; bucket dicts are
rebuilt with their keys left as JSON strings; the fingerprint dict is
rebuilt by casting each stringified key with `castKey`.

Modelled from the spec (§4.1) where it leaves this repository's sources:
`MinHasher.from_json_str` reconstructs a Fingerprinter identical to the
exported one, so the hasher argument here is the original hasher. -/
def from_json (hasher : Hasher) (s : SerCache) : Cache :=
  { hasher := hasher, num_bands := s.num_bands,
    band_width := hasher.numSeeds / s.num_bands,
    bins := s.binsS.map (fun band =>
      band.map (fun kv => (PyV.str kv.1, kv.2.dedup))),
    fingerprints := s.fingerprintsS.foldl
      (fun d kv => aput d (castKey s.id_key_type kv.1) kv.2) [] }

/-! ### Concrete instances used for witnesses and counterexamples -/

/-- A hasher with two seeds and three concrete documents: "A" ↦ [0, 0],
"B" ↦ [0, 1], anything else ↦ [5, 1]. -/
def exHasher : Hasher :=
  { numSeeds := 2,
    fingerprint := fun d => if d = "A" then [0, 0] else if d = "B" then [0, 1] else [5, 1],
    jaccard := fun _ _ => 0 }

/-- A concrete stand-in for Python's `hash` on a tuple of band values. -/
def exHash (l : List ℤ) : ℤ := l.sum

/-- The cache `Cache(exHasher, num_bands=2)` constructs. -/
def exC0 : Cache :=
  { hasher := exHasher, num_bands := 2, band_width := 1,
    bins := [[], []], fingerprints := [] }

/-- `exC0` after `update("A", 1)`, `update("B", 9)`, `update("A2", 1)`:
ids 1 and 9 share the band-0 bucket in the order [1, 9] and the band-1
bucket in the order [9, 1]. -/
def exCache : Cache :=
  (update exHash
    ((update exHash ((update exHash exC0 "A" (PyV.int 1)).1) "B" (PyV.int 9)).1)
    "A2" (PyV.int 1)).1

/-- A single-band hasher for the serialization round-trip: every document
fingerprints to [0, 0]. -/
def rtHasher : Hasher :=
  { numSeeds := 2, fingerprint := fun _ => [0, 0], jaccard := fun _ _ => 0 }

/-- The cache `Cache(rtHasher, num_bands=1)` constructs. -/
def rtC0 : Cache :=
  { hasher := rtHasher, num_bands := 1, band_width := 2,
    bins := [[]], fingerprints := [] }

/-- `rtC0` after `update("a", 1)`: a one-document populated index. -/
def rtCache : Cache := (update exHash rtC0 "a" (PyV.int 1)).1

/-- The bucket/store consistency invariant: every doc id sitting in any
bucket of any band has a stored fingerprint. -/
def storeInv (c : Cache) : Prop :=
  ∀ band ∈ c.bins, ∀ kv ∈ band, ∀ x ∈ kv.2,
    (alookup c.fingerprints x).isSome

/-- Cache states reachable from a successful construction through any
sequence of `update` and `clear` calls. -/
inductive Reached (pyh : List ℤ → ℤ) (h : Hasher) (nb : ℕ) : Cache → Prop where
  | init (c : Cache) : mkCache h nb = .ok c → Reached pyh h nb c
  | update_step (c : Cache) (d : String) (i : PyV) :
      Reached pyh h nb c → Reached pyh h nb ((update pyh c d i).1)
  | clear_step (c : Cache) : Reached pyh h nb c → Reached pyh h nb (clear c)

/-! ### Association-list (Python dict) lemmas -/

theorem alookup_aput_self {β : Type} (l : List (PyV × β)) (k : PyV) (v : β) :
    alookup (aput l k v) k = some v := by
  induction l with
  | nil => simp [aput, alookup]
  | cons hd tl ih =>
    obtain ⟨k0, v0⟩ := hd
    by_cases h : k0 = k <;> simp [aput, alookup, h, ih]

theorem alookup_aput_ne {β : Type} (l : List (PyV × β)) (k k' : PyV) (v : β)
    (h : k ≠ k') : alookup (aput l k v) k' = alookup l k' := by
  induction l with
  | nil => simp [aput, alookup, h]
  | cons hd tl ih =>
    obtain ⟨k0, v0⟩ := hd
    by_cases h0 : k0 = k
    · subst h0
      simp [aput, alookup, h]
    · simp [aput, alookup, h0, ih]

theorem isSome_alookup_aput {β : Type} (l : List (PyV × β)) (k k' : PyV) (v : β)
    (h : (alookup l k').isSome) : (alookup (aput l k v) k').isSome := by
  by_cases hk : k = k'
  · subst hk
    simp [alookup_aput_self]
  · rwa [alookup_aput_ne l k k' v hk]

theorem aput_eq_self {β : Type} (l : List (PyV × β)) (k : PyV) (v : β)
    (h : alookup l k = some v) : aput l k v = l := by
  induction l with
  | nil => simp [alookup] at h
  | cons hd tl ih =>
    obtain ⟨k0, v0⟩ := hd
    by_cases h0 : k0 = k
    · subst h0
      simp [alookup] at h
      simp [aput, h]
    · simp [alookup, h0] at h
      simp [aput, h0, ih h]

theorem aput_aput_same {β : Type} (l : List (PyV × β)) (k : PyV) (v w : β) :
    aput (aput l k v) k w = aput l k w := by
  induction l with
  | nil => simp [aput]
  | cons hd tl ih =>
    obtain ⟨k0, v0⟩ := hd
    by_cases h0 : k0 = k <;> simp [aput, h0, ih]

theorem mem_aput {β : Type} (l : List (PyV × β)) (k : PyV) (v : β) :
    ∀ kv ∈ aput l k v, kv ∈ l ∨ kv = (k, v) := by
  induction l with
  | nil => simp [aput]
  | cons hd tl ih =>
    obtain ⟨k0, v0⟩ := hd
    intro kv hkv
    by_cases h0 : k0 = k
    · subst h0
      simp [aput] at hkv
      rcases hkv with h | h
      · right; simp [h]
      · left; simp [h]
    · simp [aput, h0] at hkv
      rcases hkv with h | h
      · left; simp [h]
      · rcases ih kv h with h2 | h2
        · left; simp [h2]
        · right; exact h2

theorem mem_of_alookup_some {β : Type} (l : List (PyV × β)) (k : PyV) (v : β)
    (h : alookup l k = some v) : (k, v) ∈ l := by
  induction l with
  | nil => simp [alookup] at h
  | cons hd tl ih =>
    obtain ⟨k0, v0⟩ := hd
    by_cases h0 : k0 = k
    · subst h0
      simp [alookup] at h
      simp [h]
    · simp [alookup, h0] at h
      simp [ih h]

theorem alookup_append_single {β : Type} (band : List (PyV × β)) (key k' : PyV)
    (v : β) :
    alookup (band ++ [(key, v)]) k' =
      match alookup band k' with
      | some b => some b
      | Option.none => if key = k' then some v else Option.none := by
  induction band with
  | nil => simp [alookup]
  | cons hd tl ih =>
    obtain ⟨k0, v0⟩ := hd
    by_cases h0 : k0 = k' <;> simp [alookup, h0, ih]

/-! ### Python-set (`sadd`) and bucket (`binAdd`) lemmas -/

theorem mem_sadd_self (s : List PyV) (x : PyV) : x ∈ sadd s x := by
  by_cases h : x ∈ s <;> simp [sadd, h]

theorem mem_sadd_mono (s : List PyV) (x y : PyV) (h : y ∈ s) : y ∈ sadd s x := by
  by_cases hx : x ∈ s <;> simp [sadd, hx, h]

theorem sadd_eq_self (s : List PyV) (x : PyV) (h : x ∈ s) : sadd s x = s := by
  simp [sadd, h]

theorem mem_sadd (s : List PyV) (x y : PyV) (h : y ∈ sadd s x) :
    y ∈ s ∨ y = x := by
  by_cases hx : x ∈ s
  · simp [sadd, hx] at h
    exact Or.inl h
  · simp [sadd, hx] at h
    exact h

theorem binAdd_mem_self (band : BandBins) (key i : PyV) :
    i ∈ (alookup (binAdd band key i) key).getD [] := by
  unfold binAdd
  cases hb : alookup band key with
  | some b =>
    simp [alookup_aput_self]
    exact mem_sadd_self b i
  | none =>
    simp [alookup_append_single, hb]

theorem binAdd_mono (band : BandBins) (key k' i x : PyV)
    (h : x ∈ (alookup band k').getD []) :
    x ∈ (alookup (binAdd band key i) k').getD [] := by
  unfold binAdd
  cases hb : alookup band key with
  | some b =>
    by_cases hk : key = k'
    · subst hk
      rw [hb] at h
      simp at h
      simp [alookup_aput_self]
      exact mem_sadd_mono b i x h
    · rw [alookup_aput_ne band key k' _ hk]
      exact h
  | none =>
    rw [alookup_append_single band key k' [i]]
    cases hb' : alookup band k' with
    | some b' =>
      rw [hb'] at h
      simpa using h
    | none =>
      rw [hb'] at h
      simp at h

theorem binAdd_idem (band : BandBins) (key i : PyV) :
    binAdd (binAdd band key i) key i = binAdd band key i := by
  cases hb : alookup band key with
  | some b =>
    have h1 : binAdd band key i = aput band key (sadd b i) := by
      unfold binAdd
      rw [hb]
    rw [h1]
    have h2 : alookup (aput band key (sadd b i)) key = some (sadd b i) :=
      alookup_aput_self band key (sadd b i)
    unfold binAdd
    rw [h2]
    show aput (aput band key (sadd b i)) key (sadd (sadd b i) i) =
      aput band key (sadd b i)
    rw [sadd_eq_self (sadd b i) i (mem_sadd_self b i)]
    exact aput_aput_same band key (sadd b i) (sadd b i)
  | none =>
    have h1 : binAdd band key i = band ++ [(key, [i])] := by
      unfold binAdd
      rw [hb]
    rw [h1]
    have h2 : alookup (band ++ [(key, [i])]) key = some [i] := by
      rw [alookup_append_single band key key [i], hb]
      simp
    unfold binAdd
    rw [h2]
    show aput (band ++ [(key, [i])]) key (sadd [i] i) = band ++ [(key, [i])]
    rw [sadd_eq_self [i] i (by simp)]
    exact aput_eq_self _ key [i] h2

theorem binAdd_members (band : BandBins) (key i : PyV) :
    ∀ kv ∈ binAdd band key i, ∀ x ∈ kv.2,
      (∃ kv2 ∈ band, x ∈ kv2.2) ∨ x = i := by
  intro kv hkv x hx
  unfold binAdd at hkv
  cases hb : alookup band key with
  | some b =>
    rw [hb] at hkv
    rcases mem_aput band key (sadd b i) kv hkv with h | h
    · exact Or.inl ⟨kv, h, hx⟩
    · subst h
      simp at hx
      rcases mem_sadd b i x hx with h2 | h2
      · refine Or.inl ⟨(key, b), ?_, h2⟩
        exact mem_of_alookup_some band key b hb
      · exact Or.inr h2
  | none =>
    rw [hb] at hkv
    simp at hkv
    rcases hkv with h | h
    · exact Or.inl ⟨kv, h, hx⟩
    · rw [h] at hx
      simp at hx
      exact Or.inr hx

/-! ### Banding and bucket-update lemmas -/

theorem length_splitBySizes (sizes : List ℕ) (l : List ℤ) :
    (splitBySizes sizes l).length = sizes.length := by
  induction sizes generalizing l with
  | nil => simp [splitBySizes]
  | cons s rest ih => simp [splitBySizes, ih]

theorem length_array_split (l : List ℤ) (n : ℕ) :
    (array_split l n).length = n := by
  rw [array_split, length_splitBySizes, splitSizes, List.length_map,
    List.length_range]

theorem getElem?_update_bins (pyh : List ℤ → ℤ) (n : ℕ) (fp : List ℤ) (i : PyV)
    (bins : List BandBins) (j : ℕ) :
    (update_bins pyh n fp i bins)[j]? = (bins[j]?).map (fun band =>
      match (array_split fp n)[j]? with
      | some b => binAdd band (PyV.int (pyh b)) i
      | Option.none => band) := by
  rw [update_bins, List.getElem?_map, List.getElem?_enum]
  cases bins[j]? <;> rfl

theorem length_update_bins (pyh : List ℤ → ℤ) (n : ℕ) (fp : List ℤ) (i : PyV)
    (bins : List BandBins) :
    (update_bins pyh n fp i bins).length = bins.length := by
  rw [update_bins, List.length_map, List.enum_length]

theorem mem_update_bins_self (pyh : List ℤ → ℤ) (n : ℕ) (fp : List ℤ) (i : PyV)
    (bins : List BandBins) (k : ℕ) (band : List ℤ)
    (hk : (array_split fp n)[k]? = some band) (hlen : k < bins.length) :
    i ∈ (alookup ((update_bins pyh n fp i bins).getD k [])
      (PyV.int (pyh band))).getD [] := by
  have hne : bins[k]? ≠ Option.none := by
    simp only [ne_eq, List.getElem?_eq_none_iff, not_le]
    omega
  obtain ⟨b0, hb0⟩ := Option.ne_none_iff_exists'.mp hne
  have h1 : (update_bins pyh n fp i bins)[k]? =
      some (binAdd b0 (PyV.int (pyh band)) i) := by
    rw [getElem?_update_bins, hb0]
    simp [hk]
  rw [List.getD_eq_getElem?_getD, h1]
  exact binAdd_mem_self b0 (PyV.int (pyh band)) i

theorem mem_update_bins_mono (pyh : List ℤ → ℤ) (n : ℕ) (fp : List ℤ) (i : PyV)
    (bins : List BandBins) (j : ℕ) (key x : PyV)
    (h : x ∈ (alookup (bins.getD j []) key).getD []) :
    x ∈ (alookup ((update_bins pyh n fp i bins).getD j []) key).getD [] := by
  rw [List.getD_eq_getElem?_getD] at h ⊢
  rw [getElem?_update_bins]
  cases hj : bins[j]? with
  | none =>
    rw [hj] at h
    simp [alookup] at h
  | some b =>
    rw [hj] at h
    simp only [Option.map_some, Option.getD_some] at *
    cases hsp : (array_split fp n)[j]? with
    | none => simpa using h
    | some band =>
      simpa using binAdd_mono b (PyV.int (pyh band)) key i x h

theorem update_bins_idem (pyh : List ℤ → ℤ) (n : ℕ) (fp : List ℤ) (i : PyV)
    (bins : List BandBins) :
    update_bins pyh n fp i (update_bins pyh n fp i bins) =
      update_bins pyh n fp i bins := by
  apply List.ext_getElem?
  intro j
  rw [getElem?_update_bins, getElem?_update_bins]
  cases hj : bins[j]? with
  | none => simp
  | some b =>
    cases hsp : (array_split fp n)[j]? with
    | none => simp [hsp]
    | some band => simp [hsp, binAdd_idem]

/-! ### Candidate generation lemmas -/

theorem mem_combos2 (l : List PyV) (a b : PyV) (h : (a, b) ∈ combos2 l) :
    a ∈ l ∧ b ∈ l := by
  induction l with
  | nil => simp [combos2] at h
  | cons x xs ih =>
    rw [combos2, List.mem_append] at h
    rcases h with h | h
    · rw [List.mem_map] at h
      obtain ⟨y, hy, heq⟩ := h
      cases heq
      simp [hy]
    · rcases ih h with ⟨ha, hb⟩
      simp [ha, hb]

theorem mem_candList (c : Cache) (p : PyV × PyV) :
    p ∈ candList c ↔
      ∃ band ∈ c.bins, ∃ kv ∈ band, 1 < kv.2.length ∧ p ∈ combos2 kv.2 := by
  simp only [candList, List.mem_flatMap]
  constructor
  · rintro ⟨band, hband, kv, hkv, hp⟩
    by_cases hl : 1 < kv.2.length
    · exact ⟨band, hband, kv, hkv, hl, by simpa [hl] using hp⟩
    · simp [hl] at hp
  · rintro ⟨band, hband, kv, hkv, hl, hp⟩
    exact ⟨band, hband, kv, hkv, by simpa [hl] using hp⟩

theorem mem_bucket_members (pyh : List ℤ → ℤ) (c : Cache) (fp : List ℤ)
    (x : PyV) :
    x ∈ bucket_members pyh c fp ↔
      ∃ k band, (array_split fp c.num_bands)[k]? = some band ∧
        x ∈ (alookup (c.bins.getD k []) (PyV.int (pyh band))).getD [] := by
  simp only [bucket_members, List.mem_toFinset, List.mem_flatMap]
  constructor
  · rintro ⟨⟨k, band⟩, hmem, hx⟩
    rw [List.mem_enum_iff_getElem?] at hmem
    exact ⟨k, band, hmem, by simpa using hx⟩
  · rintro ⟨k, band, hk, hx⟩
    exact ⟨(k, band), List.mem_enum_iff_getElem?.mpr hk, by simpa using hx⟩

/-- Bucket members admitted by a lookup really sit in some bucket of that
band's dict. -/
theorem bucket_of_alookup (band : BandBins) (key x : PyV)
    (h : x ∈ (alookup band key).getD []) : ∃ kv ∈ band, x ∈ kv.2 := by
  cases hb : alookup band key with
  | none =>
    rw [hb] at h
    simp at h
  | some b =>
    rw [hb] at h
    simp at h
    exact ⟨(key, b), mem_of_alookup_some band key b hb, h⟩

theorem getD_mem_or_nil {α : Type} (l : List (List α)) (k : ℕ) :
    l.getD k [] ∈ l ∨ l.getD k [] = [] := by
  rw [List.getD_eq_getElem?_getD]
  cases hk : l[k]? with
  | none => simp
  | some b =>
    simp only [Option.getD_some]
    exact Or.inl (List.getElem?_mem hk)

/-! ### Claim theorems -/

/-- C4: for every hasher and positive band count, construction succeeds with
`band_width = num_seeds / num_bands` exactly when `num_seeds % num_bands = 0`,
and otherwise fails with the configuration assertion. -/
theorem c4_construction (h : Hasher) (nb : ℕ) (hnb : 0 < nb) :
    (h.numSeeds % nb = 0 →
      mkCache h nb =
        .ok (Cache.mk h nb (h.numSeeds / nb) (List.replicate nb []) [])) ∧
    (h.numSeeds % nb ≠ 0 → mkCache h nb = .error .assertionError) := by
  have hnz : nb ≠ 0 := Nat.pos_iff_ne_zero.mp hnb
  constructor <;> intro hd <;> simp [mkCache, hnz, hd]

/-- Witness for C4 at `num_seeds = 2`: `num_bands = 2` succeeds with
`band_width = 1`, while `num_seeds = 3`, `num_bands = 2` is rejected. -/
theorem c4_construction_witness :
    mkCache exHasher 2 =
      .ok (Cache.mk exHasher 2 1 (List.replicate 2 []) []) ∧
    mkCache { exHasher with numSeeds := 3 } 2 = .error .assertionError :=
  ⟨(c4_construction exHasher 2 (by decide)).1 (by decide),
   (c4_construction { exHasher with numSeeds := 3 } 2 (by decide)).2 (by decide)⟩

/-- C7: after `clear()`, `get_all_duplicates()` is empty while the
fingerprint store is exactly what it was. -/
theorem c7_clear_frame (c : Cache) :
    get_all_duplicates (clear c) Option.none = .ok ∅ ∧
    (clear c).fingerprints = c.fingerprints := by
  constructor
  · have hcand : candList (clear c) = [] := by
      rw [candList, clear]
      simp only [List.flatMap_eq_nil_iff]
      intro band hband
      rw [List.eq_of_mem_replicate hband]
      simp
    simp [get_all_duplicates, hcand]
  · rfl

/-- C2 (counterexample): after `update("A", 1)`, `update("B", 9)`,
`update("A2", 1)` under a concrete hasher, `get_all_duplicates(None)`
contains the pair of ids 1 and 9 in BOTH orientations, because the band-0
bucket iterates [1, 9] while the band-1 bucket iterates [9, 1]. -/
theorem c2_both_orientations :
    (PyV.int 1, PyV.int 9) ∈ gadSet exCache ∧
    (PyV.int 9, PyV.int 1) ∈ gadSet exCache := by decide

/-- C2 (amended): `get_all_duplicates(None)` is the set of ordered pairs of
distinct co-bucketed ids in bucket iteration order — each ordered pair at
most once (set semantics), but the same unordered pair can recur in the
opposite orientation when two buckets iterate the ids in different orders. -/
theorem c2_pair_characterization (c : Cache) (a b : PyV) :
    get_all_duplicates c Option.none = .ok ((candList c).toFinset) ∧
    ((a, b) ∈ (candList c).toFinset ↔
      ∃ band ∈ c.bins, ∃ kv ∈ band, 1 < kv.2.length ∧ (a, b) ∈ combos2 kv.2) :=
  ⟨rfl, by rw [List.mem_toFinset]; exact mem_candList c (a, b)⟩

/-- C9 (counterexample): registering the same document twice under
`doc_id = None` emits no warning on the second call. -/
theorem c9_none_id_no_warning :
    (update exHash ((update exHash exC0 "A" PyV.none).1) "A" PyV.none).2 =
      false := by decide

/-- C9 (amended): a second identical `update` leaves the whole cache state
(bucket membership included) unchanged, and emits the duplicate-id warning
exactly when the doc id is not `None`. -/
theorem c9_idempotent_update (pyh : List ℤ → ℤ) (c : Cache) (doc : String)
    (i : PyV) :
    (update pyh ((update pyh c doc i).1) doc i).1 = (update pyh c doc i).1 ∧
    (i ≠ PyV.none → (update pyh ((update pyh c doc i).1) doc i).2 = true) := by
  constructor
  · simp only [update]
    simp [aput_aput_same, update_bins_idem]
  · intro hi
    simp only [update]
    simp [hi, alookup_aput_self]

/-- Witness for C9 (amended) at a non-None id. -/
theorem c9_idempotent_update_witness :
    (update exHash ((update exHash exC0 "A" (PyV.int 1)).1) "A" (PyV.int 1)).1 =
      (update exHash exC0 "A" (PyV.int 1)).1 ∧
    (update exHash ((update exHash exC0 "A" (PyV.int 1)).1) "A" (PyV.int 1)).2 =
      true :=
  ⟨(c9_idempotent_update exHash exC0 "A" (PyV.int 1)).1,
   (c9_idempotent_update exHash exC0 "A" (PyV.int 1)).2 (by decide)⟩

/-- C5: a Jaccard-filtered `get_all_duplicates` that returns is a subset of
the unfiltered pair set, and every surviving pair's Jaccard estimate over
the two stored fingerprints strictly exceeds the threshold. -/
theorem c5_exact_filtering (c : Cache) (t : ℚ) (s : Finset (PyV × PyV))
    (hs : get_all_duplicates c (some t) = .ok s) :
    get_all_duplicates c Option.none = .ok ((candList c).toFinset) ∧
    s ⊆ (candList c).toFinset ∧
    ∀ p ∈ s, ∃ f1 f2, alookup c.fingerprints p.1 = some f1 ∧
      alookup c.fingerprints p.2 = some f2 ∧ c.hasher.jaccard f1 f2 > t := by
  refine ⟨rfl, ?_⟩
  rw [get_all_duplicates, filter_candidates] at hs
  split at hs
  case isFalse => simp at hs
  case isTrue hall =>
    have hseq : s = (candList c).toFinset.filter (fun p =>
        c.hasher.jaccard ((alookup c.fingerprints p.1).getD [])
          ((alookup c.fingerprints p.2).getD []) > t) :=
      (Except.ok.inj hs).symm
    subst hseq
    refine ⟨Finset.filter_subset _ _, ?_⟩
    intro p hp
    rw [Finset.mem_filter] at hp
    obtain ⟨hpmem, hpj⟩ := hp
    obtain ⟨h1, h2⟩ := hall p hpmem
    obtain ⟨f1, hf1⟩ := Option.isSome_iff_exists.mp h1
    obtain ⟨f2, hf2⟩ := Option.isSome_iff_exists.mp h2
    refine ⟨f1, f2, hf1, hf2, ?_⟩
    rwa [hf1, hf2] at hpj

/-- Witness for C5 on the populated `exCache` with threshold -1. -/
theorem c5_exact_filtering_witness :
    get_all_duplicates exCache Option.none =
      .ok ((candList exCache).toFinset) ∧
    ({(PyV.int 1, PyV.int 9), (PyV.int 9, PyV.int 1)} : Finset (PyV × PyV)) ⊆
      (candList exCache).toFinset ∧
    ∀ p ∈ ({(PyV.int 1, PyV.int 9), (PyV.int 9, PyV.int 1)} :
        Finset (PyV × PyV)),
      ∃ f1 f2, alookup exCache.fingerprints p.1 = some f1 ∧
        alookup exCache.fingerprints p.2 = some f2 ∧
        exCache.hasher.jaccard f1 f2 > -1 :=
  c5_exact_filtering exCache (-1) {(PyV.int 1, PyV.int 9), (PyV.int 9, PyV.int 1)}
    (by decide)

/-- C6: `is_duplicate` is false outright for a non-None id already stored;
otherwise it is true exactly when the banding-only duplicates of the
content, minus the supplied id, are non-empty. -/
theorem c6_is_duplicate (pyh : List ℤ → ℤ) (c : Cache) (doc : String)
    (doc_id : PyV) :
    ((doc_id ≠ PyV.none ∧ (alookup c.fingerprints doc_id).isSome) →
      is_duplicate pyh c doc doc_id = false) ∧
    (¬(doc_id ≠ PyV.none ∧ (alookup c.fingerprints doc_id).isSome) →
      (is_duplicate pyh c doc doc_id = true ↔
        ((bucket_members pyh c (c.hasher.fingerprint doc)).erase
          doc_id).Nonempty)) := by
  constructor
  · intro h
    simp [is_duplicate, h]
  · intro h
    simp [is_duplicate, h, get_duplicates_of, resolve_fp, dup_query]

/-- Witness for C6: a stored id is never a new duplicate, and a fresh id is
flagged through the bucket test. -/
theorem c6_is_duplicate_witness :
    is_duplicate exHash rtCache "a" (PyV.int 1) = false ∧
    (is_duplicate exHash rtCache "a" (PyV.int 2) = true ↔
      ((bucket_members exHash rtCache
        (rtCache.hasher.fingerprint "a")).erase (PyV.int 2)).Nonempty) :=
  ⟨(c6_is_duplicate exHash rtCache "a" (PyV.int 1)).1 (by decide),
   (c6_is_duplicate exHash rtCache "a" (PyV.int 2)).2 (by decide)⟩

/-- `dup_query` can fail only with a KeyError, never a ValueError. -/
theorem dup_query_ne_valueError (pyh : List ℤ → ℤ) (c : Cache) (fp : List ℤ)
    (mj : Option ℚ) : dup_query pyh c fp mj ≠ .error .valueError := by
  cases mj with
  | none => simp [dup_query]
  | some t =>
    rw [dup_query]
    split <;> simp

/-- C8: `get_duplicates_of` raises ValueError exactly when no content is
given and the id (if any) is unknown; a known non-None id resolves to its
stored fingerprint, and otherwise supplied content is fingerprinted
fresh. -/
theorem c8_argument_resolution (pyh : List ℤ → ℤ) (c : Cache)
    (doc : Option String) (doc_id : PyV) (mj : Option ℚ) :
    (get_duplicates_of pyh c doc doc_id mj = .error .valueError ↔
      (doc = Option.none ∧
        (doc_id = PyV.none ∨ alookup c.fingerprints doc_id = Option.none))) ∧
    (∀ fp, doc_id ≠ PyV.none → alookup c.fingerprints doc_id = some fp →
      resolve_fp c doc doc_id = .ok fp) ∧
    (∀ d, doc = some d →
      (doc_id = PyV.none ∨ alookup c.fingerprints doc_id = Option.none) →
      resolve_fp c doc doc_id = .ok (c.hasher.fingerprint d)) := by
  refine ⟨?_, ?_, ?_⟩
  · by_cases hid : doc_id = PyV.none
    · cases doc with
      | none => simp [get_duplicates_of, resolve_fp, hid]
      | some d =>
        simp [get_duplicates_of, resolve_fp, hid,
          dup_query_ne_valueError pyh c (c.hasher.fingerprint d) mj]
    · cases hl : alookup c.fingerprints doc_id with
      | some fp =>
        simp [get_duplicates_of, resolve_fp, hid, hl,
          dup_query_ne_valueError pyh c fp mj]
      | none =>
        cases doc with
        | none => simp [get_duplicates_of, resolve_fp, hid, hl]
        | some d =>
          simp [get_duplicates_of, resolve_fp, hid, hl,
            dup_query_ne_valueError pyh c (c.hasher.fingerprint d) mj]
  · intro fp hid hl
    simp [resolve_fp, hid, hl]
  · intro d hd hcases
    subst hd
    rcases hcases with hid | hl
    · simp [resolve_fp, hid]
    · by_cases hid : doc_id = PyV.none
      · simp [resolve_fp, hid]
      · simp [resolve_fp, hid, hl]

/-- Witness for C8: with neither content nor a known id the call fails with
ValueError; a stored id resolves to its stored fingerprint; fresh content
resolves to a fresh fingerprint. -/
theorem c8_argument_resolution_witness :
    (get_duplicates_of exHash rtCache Option.none (PyV.int 2) Option.none =
        .error .valueError ↔
      (Option.none = (Option.none : Option String) ∧
        ((PyV.int 2 : PyV) = PyV.none ∨
          alookup rtCache.fingerprints (PyV.int 2) = Option.none))) ∧
    resolve_fp rtCache Option.none (PyV.int 1) = .ok [0, 0] ∧
    resolve_fp rtCache (some "a") (PyV.int 2) =
      .ok (rtCache.hasher.fingerprint "a") :=
  ⟨(c8_argument_resolution exHash rtCache Option.none (PyV.int 2)
      Option.none).1,
   (c8_argument_resolution exHash rtCache Option.none (PyV.int 1)
      Option.none).2.1 [0, 0] (by decide) (by decide),
   (c8_argument_resolution exHash rtCache (some "a") (PyV.int 2)
      Option.none).2.2 "a" rfl (by decide)⟩

/-- C3: if two registered documents' fingerprints agree exactly on band `k`,
then after both updates each id is in the other's banding-only
`get_duplicates_of`. -/
theorem c3_banding_correctness (pyh : List ℤ → ℤ) (c : Cache) (d1 d2 : String)
    (i1 i2 : PyV) (k : ℕ) (band : List ℤ)
    (hlen : c.bins.length = c.num_bands)
    (h1 : i1 ≠ PyV.none) (h2 : i2 ≠ PyV.none)
    (hb1 : (array_split (c.hasher.fingerprint d1) c.num_bands)[k]? = some band)
    (hb2 : (array_split (c.hasher.fingerprint d2) c.num_bands)[k]? = some band) :
    ∃ s1 s2,
      get_duplicates_of pyh ((update pyh ((update pyh c d1 i1).1) d2 i2).1)
        Option.none i1 Option.none = .ok s1 ∧ i2 ∈ s1 ∧
      get_duplicates_of pyh ((update pyh ((update pyh c d1 i1).1) d2 i2).1)
        Option.none i2 Option.none = .ok s2 ∧ i1 ∈ s2 := by
  have hk : k < c.num_bands := by
    have hne : (array_split (c.hasher.fingerprint d1) c.num_bands)[k]? ≠
        Option.none := by
      rw [hb1]
      simp
    rw [ne_eq, List.getElem?_eq_none_iff, not_le, length_array_split] at hne
    exact hne
  have hc1bins : ((update pyh c d1 i1).1).bins =
      update_bins pyh c.num_bands (c.hasher.fingerprint d1) i1 c.bins := rfl
  have hc2bins : ((update pyh ((update pyh c d1 i1).1) d2 i2).1).bins =
      update_bins pyh c.num_bands (c.hasher.fingerprint d2) i2
        ((update pyh c d1 i1).1).bins := rfl
  have hm1 : i1 ∈ (alookup (((update pyh c d1 i1).1).bins.getD k [])
      (PyV.int (pyh band))).getD [] := by
    rw [hc1bins]
    exact mem_update_bins_self pyh c.num_bands _ i1 c.bins k band hb1
      (by rw [hlen]; exact hk)
  have hm1' : i1 ∈ (alookup
      ((((update pyh ((update pyh c d1 i1).1) d2 i2).1)).bins.getD k [])
      (PyV.int (pyh band))).getD [] := by
    rw [hc2bins]
    exact mem_update_bins_mono pyh c.num_bands _ i2 _ k _ i1 hm1
  have hm2 : i2 ∈ (alookup
      ((((update pyh ((update pyh c d1 i1).1) d2 i2).1)).bins.getD k [])
      (PyV.int (pyh band))).getD [] := by
    rw [hc2bins]
    apply mem_update_bins_self pyh c.num_bands _ i2 _ k band hb2
    rw [hc1bins, length_update_bins, hlen]
    exact hk
  have hlook2 : alookup (((update pyh ((update pyh c d1 i1).1) d2 i2).1)).fingerprints i2 =
      some (c.hasher.fingerprint d2) :=
    alookup_aput_self _ i2 _
  have hlook1 : alookup (((update pyh ((update pyh c d1 i1).1) d2 i2).1)).fingerprints i1 =
      some (if i1 = i2 then c.hasher.fingerprint d2 else c.hasher.fingerprint d1) := by
    by_cases he : i1 = i2
    · rw [if_pos he, he]
      exact alookup_aput_self _ i2 _
    · rw [if_neg he]
      show alookup (aput (aput c.fingerprints i1 (c.hasher.fingerprint d1)) i2
        (c.hasher.fingerprint d2)) i1 = _
      rw [alookup_aput_ne _ i2 i1 _ (fun hh => he hh.symm)]
      exact alookup_aput_self _ i1 _
  refine ⟨bucket_members pyh ((update pyh ((update pyh c d1 i1).1) d2 i2).1)
      (if i1 = i2 then c.hasher.fingerprint d2 else c.hasher.fingerprint d1),
    bucket_members pyh ((update pyh ((update pyh c d1 i1).1) d2 i2).1)
      (c.hasher.fingerprint d2), ?_, ?_, ?_, ?_⟩
  · simp [get_duplicates_of, resolve_fp, h1, hlook1, dup_query]
  · rw [mem_bucket_members]
    refine ⟨k, band, ?_, hm2⟩
    have hnb : ((update pyh ((update pyh c d1 i1).1) d2 i2).1).num_bands =
        c.num_bands := rfl
    rw [hnb]
    by_cases he : i1 = i2
    · rw [if_pos he]
      exact hb2
    · rw [if_neg he]
      exact hb1
  · simp [get_duplicates_of, resolve_fp, h2, hlook2, dup_query]
  · rw [mem_bucket_members]
    exact ⟨k, band, hb2, hm1'⟩

/-- Witness for C3: docs "A" and "B" agree on band 0 under `exHasher`. -/
theorem c3_banding_correctness_witness :
    ∃ s1 s2,
      get_duplicates_of exHash
        ((update exHash ((update exHash exC0 "A" (PyV.int 1)).1) "B" (PyV.int 9)).1)
        Option.none (PyV.int 1) Option.none = .ok s1 ∧ PyV.int 9 ∈ s1 ∧
      get_duplicates_of exHash
        ((update exHash ((update exHash exC0 "A" (PyV.int 1)).1) "B" (PyV.int 9)).1)
        Option.none (PyV.int 9) Option.none = .ok s2 ∧ PyV.int 1 ∈ s2 :=
  c3_banding_correctness exHash exC0 "A" "B" (PyV.int 1) (PyV.int 9) 0 [0]
    rfl (by decide) (by decide) (by decide) (by decide)

/-- The invariant is preserved by `update`: every id it adds to a bucket is
simultaneously written to the fingerprint store. -/
theorem storeInv_update (pyh : List ℤ → ℤ) (c : Cache) (d : String) (i : PyV)
    (h : storeInv c) : storeInv (update pyh c d i).1 := by
  intro band hband kv hkv x hx
  obtain ⟨j, hj⟩ := List.mem_iff_getElem?.mp hband
  have hb : ((update pyh c d i).1).bins =
      update_bins pyh c.num_bands (c.hasher.fingerprint d) i c.bins := rfl
  have hfps : ((update pyh c d i).1).fingerprints =
      aput c.fingerprints i (c.hasher.fingerprint d) := rfl
  rw [hb, getElem?_update_bins] at hj
  rw [hfps]
  cases hbj : c.bins[j]? with
  | none =>
    rw [hbj] at hj
    simp at hj
  | some oldband =>
    rw [hbj] at hj
    rw [Option.map_some'] at hj
    replace hj := Option.some.inj hj
    have holdmem : oldband ∈ c.bins := List.getElem?_mem hbj
    cases hsp : (array_split (c.hasher.fingerprint d) c.num_bands)[j]? with
    | none =>
      rw [hsp] at hj
      subst hj
      exact isSome_alookup_aput _ i x _ (h oldband holdmem kv hkv x hx)
    | some bnd =>
      rw [hsp] at hj
      subst hj
      rcases binAdd_members oldband (PyV.int (pyh bnd)) i kv hkv x hx with
        ⟨kv2, hkv2, hxkv2⟩ | hxi
      · exact isSome_alookup_aput _ i x _ (h oldband holdmem kv2 hkv2 x hxkv2)
      · subst hxi
        rw [alookup_aput_self]
        rfl

/-- The invariant is preserved by `clear`: all buckets are emptied. -/
theorem storeInv_clear (c : Cache) : storeInv (clear c) := by
  intro band hband
  have hb : (clear c).bins = List.replicate c.num_bands [] := rfl
  rw [hb] at hband
  rw [List.eq_of_mem_replicate hband]
  simp

/-- The invariant holds at construction: all buckets start empty. -/
theorem storeInv_mk (h : Hasher) (nb : ℕ) (c : Cache)
    (hc : mkCache h nb = .ok c) : storeInv c := by
  intro band hband
  rw [mkCache] at hc
  split at hc
  · exact absurd hc (by simp)
  · split at hc
    · have hceq := Except.ok.inj hc
      rw [← hceq] at hband
      simp only at hband
      rw [List.eq_of_mem_replicate hband]
      simp
    · exact absurd hc (by simp)

/-- C10: in every state reachable through `update` and `clear`, every
bucketed id has a stored fingerprint, so Jaccard filtering in
`get_all_duplicates` and `get_duplicates_of` never hits an absent id. -/
theorem c10_bucket_store_invariant (pyh : List ℤ → ℤ) (h : Hasher) (nb : ℕ)
    (c : Cache) (hr : Reached pyh h nb c) :
    storeInv c ∧
    (∀ t : ℚ, exceptOk (get_all_duplicates c (some t)) = true) ∧
    (∀ d : String, ∀ t : ℚ,
      exceptOk (get_duplicates_of pyh c (some d) PyV.none (some t)) = true) := by
  have hinv : storeInv c := by
    induction hr with
    | init c0 hc => exact storeInv_mk h nb c0 hc
    | update_step c0 d i _ ih => exact storeInv_update pyh c0 d i ih
    | clear_step c0 _ ih => exact storeInv_clear c0
  refine ⟨hinv, ?_, ?_⟩
  · intro t
    rw [get_all_duplicates, filter_candidates]
    split
    · rfl
    case isFalse hfail =>
      exfalso
      apply hfail
      intro p hp
      obtain ⟨a, b⟩ := p
      rw [List.mem_toFinset, mem_candList] at hp
      obtain ⟨band, hband, kv, hkv, _, hp2⟩ := hp
      obtain ⟨ha, hb⟩ := mem_combos2 kv.2 a b hp2
      exact ⟨hinv band hband kv hkv a ha, hinv band hband kv hkv b hb⟩
  · intro d t
    rw [get_duplicates_of]
    have hres : resolve_fp c (some d) PyV.none = .ok (c.hasher.fingerprint d) := by
      simp [resolve_fp]
    rw [hres]
    simp only [dup_query]
    split
    · rfl
    case isFalse hfail =>
      exfalso
      apply hfail
      intro x hxmem
      rw [mem_bucket_members] at hxmem
      obtain ⟨k, band, _, hx⟩ := hxmem
      obtain ⟨kv, hkv, hxkv⟩ := bucket_of_alookup _ _ x hx
      rcases getD_mem_or_nil c.bins k with hmem | hnil
      · exact hinv _ hmem kv hkv x hxkv
      · rw [hnil] at hkv
        simp at hkv

/-- Witness for C10 on a reachable one-document cache. -/
theorem c10_bucket_store_invariant_witness :
    exceptOk (get_all_duplicates rtCache (some 0)) = true ∧
    exceptOk (get_duplicates_of exHash rtCache (some "a") PyV.none (some 0)) =
      true :=
  ⟨(c10_bucket_store_invariant exHash rtHasher 1 rtCache
      (Reached.update_step rtC0 "a" (PyV.int 1) (Reached.init rtC0 rfl))).2.1 0,
   (c10_bucket_store_invariant exHash rtHasher 1 rtCache
      (Reached.update_step rtC0 "a" (PyV.int 1) (Reached.init rtC0 rfl))).2.2
      "a" 0⟩

/-- C1 (code bug): exporting and re-importing a populated one-document index
breaks `get_duplicates_of` for the registered id: the original returns
`{1}`, the re-imported index returns the empty set, because `from_json`
leaves the rebuilt bucket keys as JSON strings while lookups key on integer
hashes (and rebuilds fingerprint keys from only the first character of the
stringified id). -/
theorem c1_roundtrip_broken :
    get_duplicates_of exHash rtCache Option.none (PyV.int 1) Option.none =
      .ok {PyV.int 1} ∧
    get_duplicates_of exHash (from_json rtHasher (to_json_data rtCache))
      Option.none (PyV.int 1) Option.none = .ok ∅ := by decide

end Lsh

example : Lsh.array_split [0, 1, 2, 3] 2 = [[0, 1], [2, 3]] := by decide
example : Lsh.array_split [0, 1, 2] 2 = [[0, 1], [2]] := by decide
